import Mathlib

/-!
# TrafficLight.cpp: message queue and phase cycle

A shallow embedding of `src/TrafficLight.cpp`.

* `MessageQueue<T>` is its `_messages` sequence; `_mutex` and `_cond` carry no
  data.  Every call of `send` and `receive` runs its whole body under `_mutex`,
  so a call is one atomic step on the sequence.
* A call that cannot return in the current state (the predicate of
  `_cond.wait` is false) has outcome `blocked`: the caller is suspended with
  the state as it is.  A blocked caller is resumed by running the call again on
  the state a later `send` produced, which is what `_cond.wait(lock, pred)`
  does on wake-up (it evaluates `pred` again).
* `std::vector::back` and `pop_back` are undefined on an empty vector; they are
  embedded as partial operations and a call that reaches them on an empty
  vector has outcome `undefined`.
* Time points are integer tick counts of `system_clock`; `period` is the number
  of ticks in one millisecond, and `duration_cast<milliseconds>` truncates
  towards zero.
* The random engine is a stream `gen : Nat → Int`; `gen i` is the value of the
  `i`-th evaluation of `distr(eng)`.  That `distr(4000, 6000)` yields values in
  [4000, 6000] is a hypothesis on `gen` where a theorem needs it.
* `cycleDuration` is a `double` that holds an integer draw and
  `timeSinceLastUpdate` is a `long`; the comparison `>=` converts the `long`
  to `double`, which is monotone and exact on the integers involved, so it is
  the comparison of the two integers.
-/

/-- The two phases of a traffic light. -/
inductive TrafficLightPhase where
  | red
  | green
  deriving DecidableEq, Repr

/-- How a call ends: it returns a value in a new state, it is suspended in a
wait with the state it left, or it runs into undefined behaviour. -/
inductive Outcome (σ α : Type) where
  | returned (s : σ) (a : α)
  | blocked (s : σ)
  | undefined
  deriving DecidableEq, Repr

/-- Embeds `std::vector::back`: the last element, undefined on an empty vector. -/
def back {T : Type} (v : List T) : Option T :=
  v.getLast?

/-- Embeds `std::vector::pop_back`: drops the last element, undefined on an empty
vector. -/
def pop_back {T : Type} (v : List T) : Option (List T) :=
  match v with
  | [] => none
  | _ :: _ => some v.dropLast

/-- Embeds `std::vector::push_back`: appends at the end. -/
def push_back {T : Type} (v : List T) (x : T) : List T :=
  v ++ [x]

/-- The data of `MessageQueue<T>`: the sequence `_messages`. -/
structure MessageQueue (T : Type) where
  _messages : List T
  deriving DecidableEq, Repr

/-- Embeds `MessageQueue<T>::receive`: waits while `_messages` is empty, then moves
out `_messages.back()` and calls `_messages.pop_back()`. -/
def MessageQueue.receive {T : Type} (q : MessageQueue T) : Outcome (MessageQueue T) T :=
  if !q._messages.isEmpty then
    match back q._messages, pop_back q._messages with
    | some message, some rest => Outcome.returned ⟨rest⟩ message
    | _, _ => Outcome.undefined
  else
    Outcome.blocked q

/-- Embeds `MessageQueue<T>::send`: `_messages.push_back(message)`, then
`_cond.notify_one()`, which changes no data. -/
def MessageQueue.send {T : Type} (q : MessageQueue T) (message : T) : MessageQueue T :=
  ⟨push_back q._messages message⟩

/-- The data members of `TrafficLight` that the source file uses. -/
structure TrafficLight where
  _currentPhase : TrafficLightPhase
  _message_queue : MessageQueue TrafficLightPhase
  deriving DecidableEq, Repr

/-- The constructor `TrafficLight::TrafficLight()`: sets `_currentPhase` to
red; the queue member is default-constructed, so it is empty.  (Named `new`
because a declaration `TrafficLight.TrafficLight` would shadow the type.) -/
def TrafficLight.new : TrafficLight :=
  { _currentPhase := TrafficLightPhase.red, _message_queue := ⟨[]⟩ }

/-- Embeds `TrafficLight::waitForGreen`, with `fuel` bounding the number of loop
iterations: each iteration calls `receive` and returns when the message is
green.  `none` means the fuel ran out before the loop ended or blocked. -/
def TrafficLight.waitForGreenFuel : Nat → TrafficLight → Option (Outcome TrafficLight Unit)
  | 0, _ => none
  | fuel + 1, tl =>
    match tl._message_queue.receive with
    | Outcome.returned q msg =>
      if msg = TrafficLightPhase.green then
        some (Outcome.returned { tl with _message_queue := q } ())
      else
        TrafficLight.waitForGreenFuel fuel { tl with _message_queue := q }
    | Outcome.blocked q => some (Outcome.blocked { tl with _message_queue := q })
    | Outcome.undefined => some Outcome.undefined

/-- Embeds `TrafficLight::waitForGreen`: every iteration that continues has removed a
message, so one more iteration than there are messages is enough. -/
def TrafficLight.waitForGreen (tl : TrafficLight) : Option (Outcome TrafficLight Unit) :=
  TrafficLight.waitForGreenFuel (tl._message_queue._messages.length + 1) tl

/-- Embeds `TrafficLight::getCurrentPhase`: returns `_currentPhase`; the state is
passed through. -/
def TrafficLight.getCurrentPhase (tl : TrafficLight) : TrafficLightPhase × TrafficLight :=
  (tl._currentPhase, tl)

/-- The value of
`duration_cast<milliseconds>(now - lastUpdate).count()`, for a clock with
`period` ticks in a millisecond. -/
def timeSinceLastUpdate (period : Int) (now lastUpdate : Int) : Int :=
  (now - lastUpdate).tdiv period

/-- The local variables of `TrafficLight::cycleThroughPhases`; `eng` counts the
values drawn from the engine so far. -/
structure CycleLocals where
  lastUpdate : Int
  eng : Nat
  cycleDuration : Int
  deriving DecidableEq, Repr

/-- The state the background loop works on: the light and the loop's locals. -/
structure CycleState where
  light : TrafficLight
  locals : CycleLocals
  deriving DecidableEq, Repr

/-- The statements of `cycleThroughPhases` before the loop: one draw from
`distr(eng)` for `cycleDuration`, then the stop watch is started at `now`. -/
def cycleThroughPhasesInit (gen : Nat → Int) (now : Int) (tl : TrafficLight) : CycleState :=
  { light := tl, locals := { lastUpdate := now, eng := 1, cycleDuration := gen 0 } }

/-- One iteration of the `while (true)` loop of `cycleThroughPhases`; `now1` is
the clock read for the elapsed time and `now2` the clock read that restarts the
stop watch (only read when the phase is toggled). -/
def cycleThroughPhasesIter (period : Int) (s : CycleState) (now1 now2 : Int) : CycleState :=
  if timeSinceLastUpdate period now1 s.locals.lastUpdate ≥ s.locals.cycleDuration then
    let phase :=
      if s.light._currentPhase = TrafficLightPhase.red then TrafficLightPhase.green
      else TrafficLightPhase.red
    { light := { _currentPhase := phase, _message_queue := s.light._message_queue.send phase },
      locals := { s.locals with lastUpdate := now2 } }
  else
    s

/-- The loop of `cycleThroughPhases` run over a list of clock readings, one
pair per iteration. -/
def cycleThroughPhasesRun (period : Int) (s : CycleState) (clock : List (Int × Int)) : CycleState :=
  clock.foldl (fun st r => cycleThroughPhasesIter period st r.1 r.2) s

/-- Embeds `cycleThroughPhases` from its first statement, on a light `tl`. -/
def cycleThroughPhases (period : Int) (gen : Nat → Int) (start : Int) (tl : TrafficLight)
    (clock : List (Int × Int)) : CycleState :=
  cycleThroughPhasesRun period (cycleThroughPhasesInit gen start tl) clock


/-! ## The message queue -/

theorem receive_push {T : Type} (l : List T) (x : T) :
    MessageQueue.receive ⟨l ++ [x]⟩ = Outcome.returned ⟨l⟩ x := by
  have h1 : back (l ++ [x]) = some x := by simp [back]
  have h2 : pop_back (l ++ [x]) = some l := by
    cases l with
    | nil => rfl
    | cons a l =>
      show some ((a :: l) ++ [x]).dropLast = some (a :: l)
      rw [List.dropLast_concat]
  have h3 : (l ++ [x]).isEmpty = false := by cases l <;> rfl
  simp only [MessageQueue.receive, h1, h2, h3]
  rfl

theorem receive_nil {T : Type} : MessageQueue.receive (⟨[]⟩ : MessageQueue T) = Outcome.blocked ⟨[]⟩ := by
  simp [MessageQueue.receive]

theorem foldl_send_messages {T : Type} (vs : List T) (q : MessageQueue T) :
    (vs.foldl MessageQueue.send q)._messages = q._messages ++ vs := by
  induction vs generalizing q with
  | nil => simp
  | cons v vs ih => simp [ih, MessageQueue.send, push_back]

/-- Claim C1: after the values `vs` (non-empty) were sent in order to a queue
holding `q`, one `receive` returns the last value of `vs` and leaves `q`
followed by `vs` without its last value, which is one element shorter than the
sequence before the `receive`. -/
theorem send_seq_then_receive {T : Type} (q : MessageQueue T) (vs : List T) (h : vs ≠ []) :
    (vs.foldl MessageQueue.send q).receive
        = Outcome.returned ⟨q._messages ++ vs.dropLast⟩ (vs.getLast h)
      ∧ (vs.foldl MessageQueue.send q)._messages = q._messages ++ vs
      ∧ (q._messages ++ vs.dropLast).length + 1
          = (vs.foldl MessageQueue.send q)._messages.length := by
  have hm := foldl_send_messages vs q
  have hq : vs.foldl MessageQueue.send q = ⟨q._messages ++ vs⟩ := by
    cases hf : vs.foldl MessageQueue.send q with
    | mk m => rw [hf] at hm; simpa using hm
  have hsplit : q._messages ++ vs = (q._messages ++ vs.dropLast) ++ [vs.getLast h] := by
    rw [List.append_assoc, List.dropLast_append_getLast h]
  refine ⟨?_, hm, ?_⟩
  · rw [hq, hsplit, receive_push]
  · rw [hm, hsplit]
    simp only [List.length_append, List.length_singleton]

theorem send_seq_then_receive_witness :
    ([5, 7, 9].foldl MessageQueue.send (⟨[1, 2]⟩ : MessageQueue Nat)).receive
        = Outcome.returned ⟨[1, 2, 5, 7]⟩ 9 := by
  have h := (send_seq_then_receive (⟨[1, 2]⟩ : MessageQueue Nat) [5, 7, 9] (by decide)).1
  simpa using h

/-- Claim C7: `receive` returns a value exactly when the sequence is
non-empty; on an empty sequence it is suspended and the sequence is untouched;
it never reaches `back` or `pop_back` on an empty sequence; and once a value is
sent to an empty queue the suspended `receive` returns that value. -/
theorem receive_returns_iff_nonempty {T : Type} (q : MessageQueue T) :
    ((∃ q1 v, q.receive = Outcome.returned q1 v) ↔ q._messages ≠ [])
      ∧ (q._messages = [] → q.receive = Outcome.blocked q)
      ∧ q.receive ≠ Outcome.undefined
      ∧ (∀ v : T, (MessageQueue.receive (⟨[]⟩ : MessageQueue T) = Outcome.blocked ⟨[]⟩)
          ∧ (MessageQueue.send ⟨[]⟩ v).receive = Outcome.returned ⟨[]⟩ v) := by
  obtain ⟨m⟩ := q
  refine ⟨?_, ?_, ?_, ?_⟩
  · constructor
    · rintro ⟨q1, v, hr⟩ hnil
      simp only at hnil
      subst hnil
      rw [receive_nil] at hr
      cases hr
    · intro hne
      simp only at hne
      refine ⟨⟨m.dropLast⟩, m.getLast hne, ?_⟩
      conv_lhs => rw [← List.dropLast_append_getLast hne]
      exact receive_push _ _
  · intro hnil
    simp only at hnil
    subst hnil
    exact receive_nil
  · rcases List.eq_nil_or_concat m with hnil | ⟨l, x, hm⟩
    · subst hnil
      rw [receive_nil]
      intro hc
      cases hc
    · subst hm
      rw [List.concat_eq_append, receive_push]
      intro hc
      cases hc
  · intro v
    refine ⟨receive_nil, ?_⟩
    have := receive_push ([] : List T) v
    simpa [MessageQueue.send, push_back] using this

/-- Claim C8: a newly constructed light is red, `getCurrentPhase` on it returns
red, and `getCurrentPhase` returns `_currentPhase` and leaves the phase and the
queue of any light as they were. -/
theorem new_light_is_red :
    TrafficLight.new._currentPhase = TrafficLightPhase.red
      ∧ TrafficLight.new.getCurrentPhase = (TrafficLightPhase.red, TrafficLight.new)
      ∧ ∀ tl : TrafficLight,
          tl.getCurrentPhase.1 = tl._currentPhase ∧ tl.getCurrentPhase.2 = tl := by
  refine ⟨rfl, rfl, ?_⟩
  intro tl
  exact ⟨rfl, rfl⟩

/-! ## waitForGreen -/

theorem waitForGreenFuel_nil (fuel : Nat) (p : TrafficLightPhase) :
    TrafficLight.waitForGreenFuel (fuel + 1) ⟨p, ⟨[]⟩⟩ = some (Outcome.blocked ⟨p, ⟨[]⟩⟩) := by
  simp [TrafficLight.waitForGreenFuel, receive_nil]

theorem waitForGreenFuel_green (fuel : Nat) (p : TrafficLightPhase) (l : List TrafficLightPhase) :
    TrafficLight.waitForGreenFuel (fuel + 1) ⟨p, ⟨l ++ [TrafficLightPhase.green]⟩⟩
      = some (Outcome.returned ⟨p, ⟨l⟩⟩ ()) := by
  simp [TrafficLight.waitForGreenFuel, receive_push]

theorem waitForGreenFuel_red (fuel : Nat) (p : TrafficLightPhase) (l : List TrafficLightPhase) :
    TrafficLight.waitForGreenFuel (fuel + 1) ⟨p, ⟨l ++ [TrafficLightPhase.red]⟩⟩
      = TrafficLight.waitForGreenFuel fuel ⟨p, ⟨l⟩⟩ := by
  simp [TrafficLight.waitForGreenFuel, receive_push]

theorem phase_eq_red_of_ne_green {x : TrafficLightPhase} (h : x ≠ TrafficLightPhase.green) :
    x = TrafficLightPhase.red := by
  cases x
  · rfl
  · exact absurd rfl h

/-- With more fuel than messages, `waitForGreen` on a queue without green ends
suspended on the empty queue. -/
theorem waitForGreenFuel_no_green (p : TrafficLightPhase) (q : List TrafficLightPhase) :
    ∀ fuel, q.length < fuel → TrafficLightPhase.green ∉ q →
      TrafficLight.waitForGreenFuel fuel ⟨p, ⟨q⟩⟩ = some (Outcome.blocked ⟨p, ⟨[]⟩⟩) := by
  induction q using List.reverseRecOn with
  | nil =>
    intro fuel hf _
    obtain ⟨f, rfl⟩ := Nat.exists_eq_succ_of_ne_zero (Nat.pos_iff_ne_zero.mp hf)
    exact waitForGreenFuel_nil f p
  | append_singleton l x ih =>
    intro fuel hf hg
    obtain ⟨f, rfl⟩ := Nat.exists_eq_succ_of_ne_zero (Nat.pos_iff_ne_zero.mp (Nat.zero_lt_of_lt hf))
    have hx : x = TrafficLightPhase.red :=
      phase_eq_red_of_ne_green (fun hxe => hg (by simp [hxe]))
    subst hx
    rw [Nat.succ_eq_add_one, waitForGreenFuel_red]
    apply ih
    · simp only [List.length_append, List.length_singleton] at hf
      omega
    · intro hmem
      exact hg (List.mem_append_left _ hmem)

/-- With more fuel than messages, `waitForGreen` on a queue whose last green
is followed by `post` returns and leaves what stood before that green. -/
theorem waitForGreenFuel_last_green (p : TrafficLightPhase) (pre post : List TrafficLightPhase) :
    ∀ fuel, (pre ++ TrafficLightPhase.green :: post).length < fuel →
      TrafficLightPhase.green ∉ post →
      TrafficLight.waitForGreenFuel fuel ⟨p, ⟨pre ++ TrafficLightPhase.green :: post⟩⟩
        = some (Outcome.returned ⟨p, ⟨pre⟩⟩ ()) := by
  induction post using List.reverseRecOn with
  | nil =>
    intro fuel hf _
    obtain ⟨f, rfl⟩ := Nat.exists_eq_succ_of_ne_zero (Nat.pos_iff_ne_zero.mp (Nat.zero_lt_of_lt hf))
    exact waitForGreenFuel_green f p pre
  | append_singleton l x ih =>
    intro fuel hf hg
    obtain ⟨f, rfl⟩ := Nat.exists_eq_succ_of_ne_zero (Nat.pos_iff_ne_zero.mp (Nat.zero_lt_of_lt hf))
    have hx : x = TrafficLightPhase.red :=
      phase_eq_red_of_ne_green (fun hxe => hg (by simp [hxe]))
    subst hx
    have hre : pre ++ TrafficLightPhase.green :: (l ++ [TrafficLightPhase.red])
        = (pre ++ TrafficLightPhase.green :: l) ++ [TrafficLightPhase.red] := by simp
    rw [hre] at hf ⊢
    rw [Nat.succ_eq_add_one, waitForGreenFuel_red]
    apply ih
    · simp only [List.length_append, List.length_singleton] at hf
      simp only [List.length_append]
      omega
    · intro hmem
      exact hg (List.mem_append_left _ hmem)

/-- A list that contains `a` splits at the last occurrence of `a`. -/
theorem exists_last_occurrence {α : Type} (a : α) (q : List α) (h : a ∈ q) :
    ∃ pre post, q = pre ++ a :: post ∧ a ∉ post := by
  classical
  induction q using List.reverseRecOn with
  | nil => cases h
  | append_singleton l x ih =>
    by_cases hx : x = a
    · subst hx
      exact ⟨l, [], rfl, by simp⟩
    · have hl : a ∈ l := by
        rcases List.mem_append.mp h with h1 | h1
        · exact h1
        · simp at h1
          exact absurd h1.symm hx
      obtain ⟨pre, post, hq, hpost⟩ := ih hl
      refine ⟨pre, post ++ [x], ?_, ?_⟩
      · rw [hq]; simp
      · intro hm
        rcases List.mem_append.mp hm with h1 | h1
        · exact hpost h1
        · simp at h1
          exact hx h1.symm

/-- Claim C2: on a light whose queue holds `q`, with no `send` in between and
more loop iterations allowed than `q` has messages, `waitForGreen` returns
exactly when `q` contains green; when it returns it leaves the part of `q`
before the last green, and the messages after that green are all red; when `q`
has no green it removes all of `q` and is then suspended on the empty queue.
The phase is never changed. -/
theorem waitForGreen_removes_from_last_green (p : TrafficLightPhase)
    (q : List TrafficLightPhase) (fuel : Nat) (hf : q.length < fuel) :
    TrafficLight.waitForGreenFuel fuel ⟨p, ⟨q⟩⟩ = TrafficLight.waitForGreen ⟨p, ⟨q⟩⟩
      ∧ ((∃ tl1, TrafficLight.waitForGreenFuel fuel ⟨p, ⟨q⟩⟩ = some (Outcome.returned tl1 ()))
          ↔ TrafficLightPhase.green ∈ q)
      ∧ (∀ pre post, q = pre ++ TrafficLightPhase.green :: post →
          TrafficLightPhase.green ∉ post →
            TrafficLight.waitForGreenFuel fuel ⟨p, ⟨q⟩⟩ = some (Outcome.returned ⟨p, ⟨pre⟩⟩ ())
              ∧ ∀ x ∈ post, x = TrafficLightPhase.red)
      ∧ (TrafficLightPhase.green ∉ q →
          TrafficLight.waitForGreenFuel fuel ⟨p, ⟨q⟩⟩ = some (Outcome.blocked ⟨p, ⟨[]⟩⟩)) := by
  have hsplit : ∀ pre post, q = pre ++ TrafficLightPhase.green :: post →
      TrafficLightPhase.green ∉ post → ∀ f, q.length < f →
        TrafficLight.waitForGreenFuel f ⟨p, ⟨q⟩⟩ = some (Outcome.returned ⟨p, ⟨pre⟩⟩ ()) := by
    intro pre post hq hpost f hlt
    subst hq
    exact waitForGreenFuel_last_green p pre post f hlt hpost
  refine ⟨?_, ?_, ?_, ?_⟩
  · unfold TrafficLight.waitForGreen
    by_cases hg : TrafficLightPhase.green ∈ q
    · obtain ⟨pre, post, hq, hpost⟩ := exists_last_occurrence _ q hg
      rw [hsplit pre post hq hpost fuel hf, hsplit pre post hq hpost _ (Nat.lt_succ_self _)]
    · rw [waitForGreenFuel_no_green p q fuel hf hg,
        waitForGreenFuel_no_green p q _ (Nat.lt_succ_self _) hg]
  · constructor
    · rintro ⟨tl1, hr⟩
      by_contra hg
      rw [waitForGreenFuel_no_green p q fuel hf hg] at hr
      cases hr
    · intro hg
      obtain ⟨pre, post, hq, hpost⟩ := exists_last_occurrence _ q hg
      exact ⟨_, hsplit pre post hq hpost fuel hf⟩
  · intro pre post hq hpost
    refine ⟨hsplit pre post hq hpost fuel hf, ?_⟩
    intro x hx
    exact phase_eq_red_of_ne_green (fun hxe => hpost (hxe ▸ hx))
  · intro hg
    exact waitForGreenFuel_no_green p q fuel hf hg

theorem waitForGreen_removes_from_last_green_witness :
    TrafficLight.waitForGreenFuel 9
        ⟨TrafficLightPhase.red,
          ⟨[TrafficLightPhase.green, TrafficLightPhase.red, TrafficLightPhase.green,
            TrafficLightPhase.red, TrafficLightPhase.red]⟩⟩
      = some (Outcome.returned
          ⟨TrafficLightPhase.red, ⟨[TrafficLightPhase.green, TrafficLightPhase.red]⟩⟩ ()) :=
  ((waitForGreen_removes_from_last_green TrafficLightPhase.red
      [TrafficLightPhase.green, TrafficLightPhase.red, TrafficLightPhase.green,
        TrafficLightPhase.red, TrafficLightPhase.red] 9 (by decide)).2.2.1
    [TrafficLightPhase.green, TrafficLightPhase.red]
    [TrafficLightPhase.red, TrafficLightPhase.red] rfl (by decide)).1

/-! ## The phase cycle -/

/-- The phase after `k` toggles of a light that started red, in the words of
the specification: green for odd `k`, red for even `k`. -/
def phaseAfter (k : Nat) : TrafficLightPhase :=
  if k % 2 = 1 then TrafficLightPhase.green else TrafficLightPhase.red

/-- The first `n` published values in the words of the specification: the
`k`-th one, counted from 1, is `phaseAfter k`. -/
def published (n : Nat) : List TrafficLightPhase :=
  (List.range n).map (fun i => phaseAfter (i + 1))

theorem published_succ (n : Nat) : published (n + 1) = published n ++ [phaseAfter (n + 1)] := by
  simp [published, List.range_succ]

theorem published_length (n : Nat) : (published n).length = n := by
  simp [published]

theorem toggle_phaseAfter (n : Nat) :
    (if phaseAfter n = TrafficLightPhase.red then TrafficLightPhase.green
      else TrafficLightPhase.red) = phaseAfter (n + 1) := by
  unfold phaseAfter
  rcases Nat.mod_two_eq_zero_or_one n with h | h
  · have h1 : (n + 1) % 2 = 1 := by omega
    simp [h, h1]
  · have h1 : ¬ (n + 1) % 2 = 1 := by omega
    simp [h, h1]

/-- An iteration whose measured time is below `cycleDuration` changes
nothing. -/
theorem iter_of_lt (period : Int) (s : CycleState) (now1 now2 : Int)
    (h : timeSinceLastUpdate period now1 s.locals.lastUpdate < s.locals.cycleDuration) :
    cycleThroughPhasesIter period s now1 now2 = s := by
  unfold cycleThroughPhasesIter
  rw [if_neg (not_le.mpr h)]

/-- An iteration whose measured time reaches `cycleDuration` flips the phase,
sends the new phase and restarts the stop watch. -/
theorem iter_of_ge (period : Int) (s : CycleState) (now1 now2 : Int)
    (h : s.locals.cycleDuration ≤ timeSinceLastUpdate period now1 s.locals.lastUpdate) :
    cycleThroughPhasesIter period s now1 now2 =
      { light :=
          { _currentPhase :=
              if s.light._currentPhase = TrafficLightPhase.red then TrafficLightPhase.green
              else TrafficLightPhase.red,
            _message_queue :=
              ⟨s.light._message_queue._messages ++
                [if s.light._currentPhase = TrafficLightPhase.red then TrafficLightPhase.green
                 else TrafficLightPhase.red]⟩ },
        locals :=
          { lastUpdate := now2, eng := s.locals.eng, cycleDuration := s.locals.cycleDuration } } := by
  unfold cycleThroughPhasesIter
  rw [if_pos (ge_iff_le.mpr h)]
  rfl

theorem run_snoc (period : Int) (s : CycleState) (clock : List (Int × Int)) (r : Int × Int) :
    cycleThroughPhasesRun period s (clock ++ [r])
      = cycleThroughPhasesIter period (cycleThroughPhasesRun period s clock) r.1 r.2 := by
  simp [cycleThroughPhasesRun, List.foldl_append]

/-- The invariant of the loop on a new light: after any number of iterations
the queue holds the alternating values published so far, the phase is the one
after that many toggles, and the duration is still the first draw. -/
theorem cycle_invariant (period : Int) (gen : Nat → Int) (start : Int)
    (clock : List (Int × Int)) :
    ∃ n, n ≤ clock.length
      ∧ (cycleThroughPhases period gen start TrafficLight.new clock).light._message_queue._messages
          = published n
      ∧ (cycleThroughPhases period gen start TrafficLight.new clock).light._currentPhase
          = phaseAfter n
      ∧ (cycleThroughPhases period gen start TrafficLight.new clock).locals.cycleDuration = gen 0
      ∧ (cycleThroughPhases period gen start TrafficLight.new clock).locals.eng = 1 := by
  induction clock using List.reverseRecOn with
  | nil => exact ⟨0, Nat.le_refl _, rfl, rfl, rfl, rfl⟩
  | append_singleton clock r ih =>
    obtain ⟨n, hn, hq, hp, hd, he⟩ := ih
    unfold cycleThroughPhases at hq hp hd he ⊢
    rw [run_snoc]
    generalize cycleThroughPhasesRun period (cycleThroughPhasesInit gen start TrafficLight.new) clock
      = s at hq hp hd he
    rcases lt_or_le (timeSinceLastUpdate period r.1 s.locals.lastUpdate) s.locals.cycleDuration
      with hlt | hge
    · rw [iter_of_lt period s r.1 r.2 hlt]
      refine ⟨n, ?_, hq, hp, hd, he⟩
      simp only [List.length_append, List.length_singleton]
      omega
    · rw [iter_of_ge period s r.1 r.2 hge]
      refine ⟨n + 1, ?_, ?_, ?_, hd, he⟩
      · simp only [List.length_append, List.length_singleton]
        omega
      · simp only [hq, hp, toggle_phaseAfter, published_succ]
      · simp only [hp, toggle_phaseAfter]

/-- For a clock with a non-zero period every state has a clock reading at
which the next iteration toggles. -/
theorem exists_toggling_reading (period : Int) (hp : period ≠ 0) (s : CycleState) :
    s.locals.cycleDuration
      ≤ timeSinceLastUpdate period (s.locals.lastUpdate + s.locals.cycleDuration * period)
          s.locals.lastUpdate := by
  unfold timeSinceLastUpdate
  rw [add_sub_cancel_left, Int.mul_tdiv_cancel _ hp]

/-- For a clock with a non-zero period the loop can be run to any number of
toggles. -/
theorem cycle_reaches_every_count (period : Int) (hp : period ≠ 0) (gen : Nat → Int)
    (start : Int) (N : Nat) :
    ∃ clock,
      (cycleThroughPhases period gen start TrafficLight.new clock).light._message_queue._messages.length
        = N := by
  induction N with
  | zero => exact ⟨[], rfl⟩
  | succ N ih =>
    obtain ⟨clock, hc⟩ := ih
    refine ⟨clock ++ [((cycleThroughPhases period gen start TrafficLight.new clock).locals.lastUpdate
      + (cycleThroughPhases period gen start TrafficLight.new clock).locals.cycleDuration * period,
        0)], ?_⟩
    unfold cycleThroughPhases at hc ⊢
    rw [run_snoc]
    generalize cycleThroughPhasesRun period (cycleThroughPhasesInit gen start TrafficLight.new) clock
      = s at hc
    rw [iter_of_ge period s _ _ (exists_toggling_reading period hp s)]
    simp only [List.length_append, List.length_singleton, hc]

/-- Claim C3: for a new (red) light driven by one `cycleThroughPhases` loop,
after any run of the loop the `k`-th value in the channel (counted from 1) is
green for odd `k` and red for even `k`, no two consecutive values are equal,
the phase is the one after as many toggles as there are values, and an
iteration that toggles appends exactly the phase it has just set; with a
non-zero clock period every number of toggles is reached by some run. -/
theorem published_phases_alternate (period : Int) (gen : Nat → Int) (start : Int) :
    (∀ clock : List (Int × Int),
      (∀ k, k < (cycleThroughPhases period gen start TrafficLight.new
              clock).light._message_queue._messages.length →
          (cycleThroughPhases period gen start TrafficLight.new
              clock).light._message_queue._messages[k]?
            = some (if (k + 1) % 2 = 1 then TrafficLightPhase.green else TrafficLightPhase.red))
      ∧ (∀ k, k + 1 < (cycleThroughPhases period gen start TrafficLight.new
              clock).light._message_queue._messages.length →
          (cycleThroughPhases period gen start TrafficLight.new
              clock).light._message_queue._messages[k]?
            ≠ (cycleThroughPhases period gen start TrafficLight.new
              clock).light._message_queue._messages[k + 1]?)
      ∧ (cycleThroughPhases period gen start TrafficLight.new clock).light._currentPhase
          = (if (cycleThroughPhases period gen start TrafficLight.new
                clock).light._message_queue._messages.length % 2 = 1
              then TrafficLightPhase.green else TrafficLightPhase.red)
      ∧ (∀ now1 now2,
          cycleThroughPhases period gen start TrafficLight.new (clock ++ [(now1, now2)])
            = cycleThroughPhases period gen start TrafficLight.new clock
          ∨ ((cycleThroughPhases period gen start TrafficLight.new
                (clock ++ [(now1, now2)])).light._message_queue._messages
              = (cycleThroughPhases period gen start TrafficLight.new
                  clock).light._message_queue._messages
                ++ [(cycleThroughPhases period gen start TrafficLight.new
                      (clock ++ [(now1, now2)])).light._currentPhase]
            ∧ (cycleThroughPhases period gen start TrafficLight.new
                (clock ++ [(now1, now2)])).light._currentPhase
              ≠ (cycleThroughPhases period gen start TrafficLight.new clock).light._currentPhase)))
    ∧ (period ≠ 0 → ∀ N, ∃ clock,
        (cycleThroughPhases period gen start TrafficLight.new
          clock).light._message_queue._messages.length = N) := by
  refine ⟨?_, fun hp N => cycle_reaches_every_count period hp gen start N⟩
  intro clock
  obtain ⟨n, -, hq, hph, -, -⟩ := cycle_invariant period gen start clock
  refine ⟨?_, ?_, ?_, ?_⟩
  · intro k hk
    rw [hq] at hk ⊢
    rw [published_length] at hk
    simp [published, phaseAfter, hk]
  · intro k hk
    rw [hq] at hk ⊢
    rw [published_length] at hk
    have hk0 : k < n := by omega
    simp only [published, List.getElem?_map, List.getElem?_range hk, List.getElem?_range hk0,
      Option.map_some', phaseAfter]
    rcases Nat.mod_two_eq_zero_or_one k with h | h
    · have h1 : (k + 1) % 2 = 1 := by omega
      have h2 : ¬ (k + 1 + 1) % 2 = 1 := by omega
      simp [h1, h2]
    · have h1 : ¬ (k + 1) % 2 = 1 := by omega
      have h2 : (k + 1 + 1) % 2 = 1 := by omega
      simp [h1, h2]
  · rw [hph, hq, published_length]
    rfl
  · intro now1 now2
    unfold cycleThroughPhases
    rw [run_snoc]
    generalize cycleThroughPhasesRun period (cycleThroughPhasesInit gen start TrafficLight.new) clock
      = s
    rcases lt_or_le (timeSinceLastUpdate period now1 s.locals.lastUpdate) s.locals.cycleDuration
      with hlt | hge
    · left
      exact iter_of_lt period s now1 now2 hlt
    · right
      rw [iter_of_ge period s now1 now2 hge]
      refine ⟨rfl, ?_⟩
      show (if s.light._currentPhase = TrafficLightPhase.red then TrafficLightPhase.green
        else TrafficLightPhase.red) ≠ s.light._currentPhase
      generalize s.light._currentPhase = ph
      cases ph <;> decide

/-- No iteration writes `cycleDuration` or draws from the engine. -/
theorem iter_keeps_duration (period : Int) (s : CycleState) (now1 now2 : Int) :
    (cycleThroughPhasesIter period s now1 now2).locals.cycleDuration = s.locals.cycleDuration
      ∧ (cycleThroughPhasesIter period s now1 now2).locals.eng = s.locals.eng := by
  rcases lt_or_le (timeSinceLastUpdate period now1 s.locals.lastUpdate) s.locals.cycleDuration
    with hlt | hge
  · rw [iter_of_lt period s now1 now2 hlt]
    exact ⟨rfl, rfl⟩
  · rw [iter_of_ge period s now1 now2 hge]
    exact ⟨rfl, rfl⟩

/-- On any light the duration after a run of the loop is the one draw made
before the loop. -/
theorem run_keeps_duration (period : Int) (gen : Nat → Int) (start : Int) (tl : TrafficLight)
    (clock : List (Int × Int)) :
    (cycleThroughPhases period gen start tl clock).locals.cycleDuration = gen 0
      ∧ (cycleThroughPhases period gen start tl clock).locals.eng = 1 := by
  induction clock using List.reverseRecOn with
  | nil => exact ⟨rfl, rfl⟩
  | append_singleton clock r ih =>
    unfold cycleThroughPhases at ih ⊢
    rw [run_snoc]
    obtain ⟨h1, h2⟩ := iter_keeps_duration period
      (cycleThroughPhasesRun period (cycleThroughPhasesInit gen start tl) clock) r.1 r.2
    rw [h1, h2]
    exact ih

/-- Claim C4 as stated fails: with a clock of one tick per millisecond, first
draw 4000 and second draw 6000, the iteration at 4000 ms toggles, and after it
`cycleDuration` is still 4000, not the next draw 6000, and nothing was drawn;
the iteration 4000 ms after that toggle toggles again, which a fresh duration
of 6000 would not allow. -/
theorem toggle_does_not_redraw :
    (cycleThroughPhases 1 (fun i => if i = 0 then 4000 else 6000) 0 TrafficLight.new
        [(4000, 4000)]).light._message_queue._messages = [TrafficLightPhase.green]
      ∧ (cycleThroughPhases 1 (fun i => if i = 0 then 4000 else 6000) 0 TrafficLight.new
        [(4000, 4000)]).locals.cycleDuration = 4000
      ∧ ¬ ((cycleThroughPhases 1 (fun i => if i = 0 then 4000 else 6000) 0 TrafficLight.new
        [(4000, 4000)]).locals.cycleDuration
          = (fun i : Nat => if i = 0 then (4000 : Int) else 6000) 1)
      ∧ (cycleThroughPhases 1 (fun i => if i = 0 then 4000 else 6000) 0 TrafficLight.new
        [(4000, 4000)]).locals.eng = 1
      ∧ (cycleThroughPhases 1 (fun i => if i = 0 then 4000 else 6000) 0 TrafficLight.new
        [(4000, 4000), (8000, 8000)]).light._message_queue._messages
          = [TrafficLightPhase.green, TrafficLightPhase.red] := by
  decide

/-- Claim C4, amended: the duration is drawn once, before the loop, from the
range [4000, 6000]; after any run of the loop on any light `cycleDuration` is
still that first draw and the engine has been used once, and no iteration,
toggling or not, changes `cycleDuration` or draws a value. -/
theorem cycle_duration_drawn_once (period : Int) (gen : Nat → Int) (start : Int)
    (tl : TrafficLight) (clock : List (Int × Int)) (hgen : 4000 ≤ gen 0 ∧ gen 0 ≤ 6000) :
    (cycleThroughPhases period gen start tl clock).locals.cycleDuration = gen 0
      ∧ (cycleThroughPhases period gen start tl clock).locals.eng = 1
      ∧ 4000 ≤ (cycleThroughPhases period gen start tl clock).locals.cycleDuration
      ∧ (cycleThroughPhases period gen start tl clock).locals.cycleDuration ≤ 6000
      ∧ ∀ (s : CycleState) (now1 now2 : Int),
          (cycleThroughPhasesIter period s now1 now2).locals.cycleDuration = s.locals.cycleDuration
            ∧ (cycleThroughPhasesIter period s now1 now2).locals.eng = s.locals.eng := by
  obtain ⟨h1, h2⟩ := run_keeps_duration period gen start tl clock
  refine ⟨h1, h2, ?_, ?_, fun s now1 now2 => iter_keeps_duration period s now1 now2⟩
  · rw [h1]; exact hgen.1
  · rw [h1]; exact hgen.2

theorem cycle_duration_drawn_once_witness :
    (cycleThroughPhases 1 (fun i => if i = 0 then 4000 else 6000) 0 TrafficLight.new
        [(4000, 4000), (8000, 8000)]).locals.cycleDuration = 4000 :=
  (cycle_duration_drawn_once 1 (fun i => if i = 0 then 4000 else 6000) 0 TrafficLight.new
    [(4000, 4000), (8000, 8000)] (by decide)).1

/-- A positive measured time bounds the tick difference from below. -/
theorem ticks_of_measured (period d c : Int) (hp : 0 < period) (hc : 0 < c)
    (h : c ≤ d.tdiv period) : c * period ≤ d := by
  rcases lt_or_le d 0 with hneg | hpos
  · have h1 : 0 ≤ (-d).tdiv period := Int.tdiv_nonneg (by omega) (le_of_lt hp)
    rw [Int.neg_tdiv] at h1
    omega
  · rw [Int.tdiv_eq_ediv hpos (le_of_lt hp)] at h
    exact (Int.le_ediv_iff_mul_le hp).mp h

/-- Claim C5: in a state reached by the loop on any light, with the duration
drawn from [4000, 6000], the next iteration toggles the phase, sends the new
phase and restarts the stop watch exactly when the measured milliseconds since
`lastUpdate` are at least `cycleDuration`; below 4000 ms nothing changes, from
6000 ms on it toggles, an iteration that does not toggle leaves the whole state
(phase, channel, `lastUpdate`) as it was, and a toggle happens only when at
least 4000 ms were measured since `lastUpdate`, which for a positive clock
period is at least 4000 periods of ticks. -/
theorem toggle_iff_elapsed_reaches_duration (period : Int) (gen : Nat → Int) (start : Int)
    (tl : TrafficLight) (clock : List (Int × Int)) (now1 now2 : Int)
    (hgen : 4000 ≤ gen 0 ∧ gen 0 ≤ 6000) :
    ((cycleThroughPhases period gen start tl clock).locals.cycleDuration
          ≤ timeSinceLastUpdate period now1
              (cycleThroughPhases period gen start tl clock).locals.lastUpdate
        ↔ (cycleThroughPhases period gen start tl (clock ++ [(now1, now2)])).light._currentPhase
            ≠ (cycleThroughPhases period gen start tl clock).light._currentPhase
          ∧ (cycleThroughPhases period gen start tl
                (clock ++ [(now1, now2)])).light._message_queue._messages
              = (cycleThroughPhases period gen start tl clock).light._message_queue._messages
                ++ [(cycleThroughPhases period gen start tl
                      (clock ++ [(now1, now2)])).light._currentPhase]
          ∧ (cycleThroughPhases period gen start tl (clock ++ [(now1, now2)])).locals.lastUpdate
              = now2)
      ∧ (timeSinceLastUpdate period now1
            (cycleThroughPhases period gen start tl clock).locals.lastUpdate < 4000 →
          cycleThroughPhases period gen start tl (clock ++ [(now1, now2)])
            = cycleThroughPhases period gen start tl clock)
      ∧ (6000 ≤ timeSinceLastUpdate period now1
            (cycleThroughPhases period gen start tl clock).locals.lastUpdate →
          (cycleThroughPhases period gen start tl (clock ++ [(now1, now2)])).light._currentPhase
            ≠ (cycleThroughPhases period gen start tl clock).light._currentPhase
          ∧ (cycleThroughPhases period gen start tl
                (clock ++ [(now1, now2)])).light._message_queue._messages
              = (cycleThroughPhases period gen start tl clock).light._message_queue._messages
                ++ [(cycleThroughPhases period gen start tl
                      (clock ++ [(now1, now2)])).light._currentPhase])
      ∧ (timeSinceLastUpdate period now1
            (cycleThroughPhases period gen start tl clock).locals.lastUpdate
          < (cycleThroughPhases period gen start tl clock).locals.cycleDuration →
          cycleThroughPhases period gen start tl (clock ++ [(now1, now2)])
            = cycleThroughPhases period gen start tl clock)
      ∧ ((cycleThroughPhases period gen start tl (clock ++ [(now1, now2)])).light
            ≠ (cycleThroughPhases period gen start tl clock).light →
          4000 ≤ timeSinceLastUpdate period now1
              (cycleThroughPhases period gen start tl clock).locals.lastUpdate
          ∧ (0 < period →
              4000 * period
                ≤ now1 - (cycleThroughPhases period gen start tl clock).locals.lastUpdate)) := by
  obtain ⟨hd, -⟩ := run_keeps_duration period gen start tl clock
  have hstep : cycleThroughPhases period gen start tl (clock ++ [(now1, now2)])
      = cycleThroughPhasesIter period (cycleThroughPhases period gen start tl clock) now1 now2 := by
    unfold cycleThroughPhases
    rw [run_snoc]
  rw [hstep]
  generalize cycleThroughPhases period gen start tl clock = s at hd
  have hlo : 4000 ≤ s.locals.cycleDuration := by rw [hd]; exact hgen.1
  have hhi : s.locals.cycleDuration ≤ 6000 := by rw [hd]; exact hgen.2
  have hflip : (if s.light._currentPhase = TrafficLightPhase.red then TrafficLightPhase.green
      else TrafficLightPhase.red) ≠ s.light._currentPhase := by
    generalize s.light._currentPhase = ph
    cases ph <;> decide
  have htog : s.locals.cycleDuration ≤ timeSinceLastUpdate period now1 s.locals.lastUpdate →
      (cycleThroughPhasesIter period s now1 now2).light._currentPhase ≠ s.light._currentPhase
        ∧ (cycleThroughPhasesIter period s now1 now2).light._message_queue._messages
            = s.light._message_queue._messages
              ++ [(cycleThroughPhasesIter period s now1 now2).light._currentPhase]
        ∧ (cycleThroughPhasesIter period s now1 now2).locals.lastUpdate = now2 := by
    intro hge
    rw [iter_of_ge period s now1 now2 hge]
    exact ⟨hflip, rfl, rfl⟩
  refine ⟨⟨htog, ?_⟩, ?_, ?_, ?_, ?_⟩
  · rintro ⟨hne, -, -⟩
    by_contra hlt
    rw [iter_of_lt period s now1 now2 (not_le.mp hlt)] at hne
    exact hne rfl
  · intro hlt
    exact iter_of_lt period s now1 now2 (lt_of_lt_of_le hlt hlo)
  · intro hge
    obtain ⟨h1, h2, -⟩ := htog (le_trans hhi hge)
    exact ⟨h1, h2⟩
  · intro hlt
    exact iter_of_lt period s now1 now2 hlt
  · intro hne
    have hge : s.locals.cycleDuration ≤ timeSinceLastUpdate period now1 s.locals.lastUpdate := by
      by_contra hlt
      rw [iter_of_lt period s now1 now2 (not_le.mp hlt)] at hne
      exact hne rfl
    have h4 : 4000 ≤ timeSinceLastUpdate period now1 s.locals.lastUpdate := le_trans hlo hge
    refine ⟨h4, ?_⟩
    intro hp
    exact ticks_of_measured period _ 4000 hp (by decide) h4

theorem toggle_iff_elapsed_reaches_duration_witness :
    cycleThroughPhases 1000 (fun _ => 5000) 0 TrafficLight.new
        ([(5000000, 5000010)] ++ [(9999999, 10000000)])
      = cycleThroughPhases 1000 (fun _ => 5000) 0 TrafficLight.new [(5000000, 5000010)] :=
  (toggle_iff_elapsed_reaches_duration 1000 (fun _ => 5000) 0 TrafficLight.new
    [(5000000, 5000010)] 9999999 10000000 (by decide)).2.2.2.1 (by decide)

/-! ## waitForGreen against the phase cycle -/

/-- Claim C6: on a new light on which the loop has run without a toggle yet
(no value published), the light is still as constructed and `waitForGreen` is
suspended with nothing removed; when the next iteration is the first toggle
the light is green with exactly the one published value in the channel, and
the resumed `waitForGreen` returns having removed that value: at its return
`getCurrentPhase` gives green and the channel is empty. -/
theorem waitForGreen_returns_at_first_toggle (period : Int) (gen : Nat → Int) (start : Int)
    (clock : List (Int × Int)) (now1 now2 : Int) (fuel : Nat) (hf : 1 < fuel)
    (hquiet : (cycleThroughPhases period gen start TrafficLight.new
        clock).light._message_queue._messages = [])
    (htoggle : (cycleThroughPhases period gen start TrafficLight.new clock).locals.cycleDuration
      ≤ timeSinceLastUpdate period now1
          (cycleThroughPhases period gen start TrafficLight.new clock).locals.lastUpdate) :
    (cycleThroughPhases period gen start TrafficLight.new clock).light = TrafficLight.new
      ∧ TrafficLight.waitForGreenFuel fuel
          (cycleThroughPhases period gen start TrafficLight.new clock).light
            = some (Outcome.blocked TrafficLight.new)
      ∧ (cycleThroughPhases period gen start TrafficLight.new (clock ++ [(now1, now2)])).light
          = ⟨TrafficLightPhase.green, ⟨[TrafficLightPhase.green]⟩⟩
      ∧ ∃ tl1,
          TrafficLight.waitForGreenFuel fuel
              (cycleThroughPhases period gen start TrafficLight.new (clock ++ [(now1, now2)])).light
            = some (Outcome.returned tl1 ())
          ∧ tl1.getCurrentPhase.1 = TrafficLightPhase.green
          ∧ tl1._message_queue._messages = [] := by
  obtain ⟨n, -, hq, hph, -, -⟩ := cycle_invariant period gen start clock
  have hn : n = 0 := by
    have hlen := congrArg List.length hq
    rw [hquiet, published_length] at hlen
    exact hlen.symm
  subst hn
  have hlight : (cycleThroughPhases period gen start TrafficLight.new clock).light
      = TrafficLight.new := by
    cases hl : (cycleThroughPhases period gen start TrafficLight.new clock).light with
    | mk ph mq =>
      cases mq with
      | mk m =>
        rw [hl] at hquiet hph
        simp only at hquiet hph
        subst hquiet
        subst hph
        rfl
  have hstep : cycleThroughPhases period gen start TrafficLight.new (clock ++ [(now1, now2)])
      = cycleThroughPhasesIter period (cycleThroughPhases period gen start TrafficLight.new clock)
          now1 now2 := by
    unfold cycleThroughPhases
    rw [run_snoc]
  obtain ⟨f, rfl⟩ : ∃ f, fuel = f + 1 + 1 := ⟨fuel - 2, by omega⟩
  have hafter : (cycleThroughPhases period gen start TrafficLight.new (clock ++ [(now1, now2)])).light
      = ⟨TrafficLightPhase.green, ⟨[TrafficLightPhase.green]⟩⟩ := by
    rw [hstep, iter_of_ge period _ now1 now2 htoggle, hlight]
    rfl
  refine ⟨hlight, ?_, hafter, ?_⟩
  · rw [hlight]
    exact waitForGreenFuel_nil (f + 1) TrafficLightPhase.red
  · refine ⟨⟨TrafficLightPhase.green, ⟨[]⟩⟩, ?_, rfl, rfl⟩
    rw [hafter]
    exact waitForGreenFuel_green (f + 1) TrafficLightPhase.green []

theorem waitForGreen_returns_at_first_toggle_witness :
    (cycleThroughPhases 1 (fun _ => 4000) 0 TrafficLight.new
        ([(1, 0), (3999, 0)] ++ [(4000, 4001)])).light
      = ⟨TrafficLightPhase.green, ⟨[TrafficLightPhase.green]⟩⟩ :=
  (waitForGreen_returns_at_first_toggle 1 (fun _ => 4000) 0 [(1, 0), (3999, 0)] 4000 4001 5
    (by decide) (by decide) (by decide)).2.2.1

theorem published_take_pred (n : Nat) : (published (n + 1)).take n = published n := by
  rw [published_succ]
  have h := List.take_left (published n) [phaseAfter (n + 1)]
  rw [published_length] at h
  exact h

/-- Claim C10: on a new light whose loop has toggled `k ≥ 1` times with
nothing received in between, `waitForGreen` returns; for odd `k` it removes one
value and the phase at its return is green; for even `k` it removes two values
(the latest red and the green before it) and the phase at its return is red;
the `k - 1` or `k - 2` older values stay in the channel. -/
theorem waitForGreen_returns_on_stale_green (period : Int) (gen : Nat → Int) (start : Int)
    (clock : List (Int × Int)) (fuel : Nat)
    (hk : 1 ≤ (cycleThroughPhases period gen start TrafficLight.new
        clock).light._message_queue._messages.length)
    (hf : (cycleThroughPhases period gen start TrafficLight.new
        clock).light._message_queue._messages.length < fuel) :
    ((cycleThroughPhases period gen start TrafficLight.new
          clock).light._message_queue._messages.length % 2 = 1 →
        ∃ tl1,
          TrafficLight.waitForGreenFuel fuel
              (cycleThroughPhases period gen start TrafficLight.new clock).light
            = some (Outcome.returned tl1 ())
          ∧ tl1.getCurrentPhase.1 = TrafficLightPhase.green
          ∧ tl1._message_queue._messages
              = (cycleThroughPhases period gen start TrafficLight.new
                  clock).light._message_queue._messages.take
                ((cycleThroughPhases period gen start TrafficLight.new
                  clock).light._message_queue._messages.length - 1)
          ∧ (cycleThroughPhases period gen start TrafficLight.new
                clock).light._message_queue._messages
              = tl1._message_queue._messages ++ [TrafficLightPhase.green])
      ∧ ((cycleThroughPhases period gen start TrafficLight.new
          clock).light._message_queue._messages.length % 2 = 0 →
        ∃ tl1,
          TrafficLight.waitForGreenFuel fuel
              (cycleThroughPhases period gen start TrafficLight.new clock).light
            = some (Outcome.returned tl1 ())
          ∧ tl1.getCurrentPhase.1 = TrafficLightPhase.red
          ∧ tl1._message_queue._messages
              = (cycleThroughPhases period gen start TrafficLight.new
                  clock).light._message_queue._messages.take
                ((cycleThroughPhases period gen start TrafficLight.new
                  clock).light._message_queue._messages.length - 2)
          ∧ (cycleThroughPhases period gen start TrafficLight.new
                clock).light._message_queue._messages
              = tl1._message_queue._messages
                ++ [TrafficLightPhase.green, TrafficLightPhase.red]) := by
  obtain ⟨n, -, hq, hph, -, -⟩ := cycle_invariant period gen start clock
  generalize (cycleThroughPhases period gen start TrafficLight.new clock).light = tl
    at hk hf hq hph
  obtain ⟨ph, ⟨m⟩⟩ := tl
  simp only at hk hf hq hph
  subst hq
  subst hph
  rw [published_length] at hk hf
  simp only [published_length]
  constructor
  · intro hodd
    obtain ⟨j, rfl⟩ : ∃ j, n = j + 1 := ⟨n - 1, by omega⟩
    have hg : phaseAfter (j + 1) = TrafficLightPhase.green := by
      unfold phaseAfter
      rw [if_pos hodd]
    obtain ⟨f, rfl⟩ : ∃ f, fuel = f + 1 := ⟨fuel - 1, by omega⟩
    refine ⟨⟨TrafficLightPhase.green, ⟨published j⟩⟩, ?_, rfl, ?_, ?_⟩
    · rw [published_succ, hg]
      exact waitForGreenFuel_green f _ _
    · rw [Nat.add_sub_cancel, published_take_pred]
    · rw [published_succ, hg]
  · intro heven
    obtain ⟨j, rfl⟩ : ∃ j, n = j + 1 + 1 := ⟨n - 2, by omega⟩
    have hr : phaseAfter (j + 1 + 1) = TrafficLightPhase.red := by
      unfold phaseAfter
      rw [if_neg (by omega)]
    have hg : phaseAfter (j + 1) = TrafficLightPhase.green := by
      unfold phaseAfter
      rw [if_pos (by omega)]
    have hpub : published (j + 1 + 1)
        = published j ++ TrafficLightPhase.green :: [TrafficLightPhase.red] := by
      rw [published_succ, published_succ, hr, hg, List.append_assoc]
      rfl
    refine ⟨⟨TrafficLightPhase.red, ⟨published j⟩⟩, ?_, rfl, ?_, ?_⟩
    · rw [hpub, hr]
      apply waitForGreenFuel_last_green
      · rw [← hpub, published_length]
        exact hf
      · decide
    · show published j = (published (j + 1 + 1)).take (j + 1 + 1 - 2)
      rw [hpub]
      have h := List.take_left (published j) (TrafficLightPhase.green :: [TrafficLightPhase.red])
      rw [published_length] at h
      have hj : j + 1 + 1 - 2 = j := by omega
      rw [hj]
      exact h.symm
    · exact hpub

theorem waitForGreen_returns_on_stale_green_witness :
    ∃ tl1,
      TrafficLight.waitForGreenFuel 3
          (cycleThroughPhases 1 (fun _ => 4000) 0 TrafficLight.new
            [(4000, 4000), (8000, 8000)]).light
        = some (Outcome.returned tl1 ())
      ∧ tl1.getCurrentPhase.1 = TrafficLightPhase.red
      ∧ tl1._message_queue._messages = [] := by
  obtain ⟨tl1, h1, h2, h3, -⟩ :=
    (waitForGreen_returns_on_stale_green 1 (fun _ => 4000) 0 [(4000, 4000), (8000, 8000)] 3
      (by decide) (by decide)).2 (by decide)
  exact ⟨tl1, h1, h2, by rw [h3]; decide⟩
